import Mathlib

/-!
Verification of the temporal layout engine of the purtsi.fi timeline.

The TypeScript source represents instants as JavaScript `Date` objects
(millisecond timestamps with civil-calendar accessors).  We embed a civil
date as a pair `⟨idx, off⟩`: `idx = year * 12 + month` (month 0-based, as in
JS `getMonth`), and `off` = milliseconds since the first instant of that
month.  A date constructed by JS is always *normalized*
(`0 ≤ off < monthLen idx`, predicate `Valid`); arithmetic such as
`setMonth` may transiently leave the civil fields denormalized, which JS
renormalizes — in this embedding the timestamp (`JSDate.time`) of a
denormalized pair is exactly the timestamp JS would hold after
renormalization, so order comparisons and timestamp differences agree with
JS without an explicit renormalization pass.  Timestamps are measured in
integer milliseconds from a fixed origin (Jan 1 of year 0); every use in
the program (comparisons, within-month differences) is invariant under the
affine shift to the Unix epoch.  The time zone is taken to be UTC, so
`new Date("YYYY-MM-DD")` and `new Date(y, m, d)` denote the same instant.
-/

/-- Milliseconds per day. -/
def msPerDay : ℤ := 86400000

/-- Gregorian leap-year test (JS `%` agrees with `Int.emod` on the `== 0` tests). -/
def isLeap (y : ℤ) : Bool := (y % 4 == 0 && y % 100 != 0) || y % 400 == 0

/-- Number of days of month `m` (0-based: 0 = January … 11 = December) of year `y`. -/
def daysInMonth (y m : ℤ) : ℤ :=
  if m = 1 then (if isLeap y then 29 else 28)
  else if m = 3 ∨ m = 5 ∨ m = 8 ∨ m = 10 then 30 else 31

/-- Days of the months strictly before month `m`, in a non-leap year. -/
def daysBeforeMonthNonLeap (m : ℤ) : ℤ :=
  if m ≤ 0 then 0 else if m = 1 then 31 else if m = 2 then 59
  else if m = 3 then 90 else if m = 4 then 120 else if m = 5 then 151
  else if m = 6 then 181 else if m = 7 then 212 else if m = 8 then 243
  else if m = 9 then 273 else if m = 10 then 304 else 334

/-- Days of the months of year `y` strictly before month `m`. -/
def daysBeforeMonth (y m : ℤ) : ℤ :=
  daysBeforeMonthNonLeap m + (if 2 ≤ m ∧ isLeap y then 1 else 0)

/-- Days from Jan 1 of year 0 to Jan 1 of year `y` (may be negative). -/
def daysBeforeYear (y : ℤ) : ℤ :=
  365 * y + (y - 1) / 4 - (y - 1) / 100 + (y - 1) / 400

/-- A JavaScript `Date`: civil month index (`year * 12 + month`, month
0-based) together with the millisecond offset into that month. -/
structure JSDate where
  idx : ℤ
  off : ℤ
deriving DecidableEq, Repr

/-- Length of the month with absolute index `idx`, in milliseconds. -/
def monthLen (idx : ℤ) : ℤ := daysInMonth (idx / 12) (idx % 12) * msPerDay

/-- JS `Date.prototype.getFullYear`. -/
def JSDate.getFullYear (d : JSDate) : ℤ := d.idx / 12

/-- JS `Date.prototype.getMonth` (0-based). -/
def JSDate.getMonth (d : JSDate) : ℤ := d.idx % 12

/-- Absolute timestamp of the first instant of the month with index `idx`,
in ms from Jan 1 of year 0. -/
def monthStartMs (idx : ℤ) : ℤ :=
  (daysBeforeYear (idx / 12) + daysBeforeMonth (idx / 12) (idx % 12)) * msPerDay

/-- The timestamp a JS `Date` stores (`Number(d)` / `d.getTime()`), up to the
fixed affine shift from year 0 to the Unix epoch. -/
def JSDate.time (d : JSDate) : ℤ := monthStartMs d.idx + d.off

/-- A civil representation actually held by a JS `Date` object: the offset
falls inside its month. -/
def Valid (d : JSDate) : Prop := 0 ≤ d.off ∧ d.off < monthLen d.idx

instance (d : JSDate) : Decidable (Valid d) := by unfold Valid; infer_instance

/-- `new Date(y, m, day)` at midnight (`m` 0-based, as in the source's
`new Date(y, 0, 1)`). -/
def newDateYMD (y m day : ℤ) : JSDate := ⟨y * 12 + m, (day - 1) * msPerDay⟩

/-- `toDate` applied to an ISO string `"y-m-day"` (`m` 1-based, as written in
the data literals): UTC midnight of that civil date. -/
def isoDate (y m day : ℤ) : JSDate := newDateYMD y (m - 1) day

/-- Source `monthDiff`: `(b.getFullYear() - a.getFullYear()) * 12 + (b.getMonth() - a.getMonth())`. -/
def monthDiff (a b : JSDate) : ℤ :=
  (b.getFullYear - a.getFullYear) * 12 + (b.getMonth - a.getMonth)

/-- Source `addMonths`: copy the date and `setMonth(getMonth() + m)`.  The
civil pair is kept denormalized; its `time` is the timestamp JS holds after
its internal renormalization, because `setMonth` preserves day-of-month and
time-of-day, i.e. the offset into the (new) month. -/
def addMonths (d : JSDate) (m : ℤ) : JSDate := ⟨d.idx + m, d.off⟩

/-- Source `startOfMonth`: `new Date(d.getFullYear(), d.getMonth(), 1)`. -/
def startOfMonth (d : JSDate) : JSDate := ⟨d.getFullYear * 12 + d.getMonth, 0⟩

/-- Source `startOfYear`: `new Date(d.getFullYear(), 0, 1)`. -/
def startOfYear (d : JSDate) : JSDate := ⟨d.getFullYear * 12, 0⟩

/-- Source `endOfYear`: `new Date(d.getFullYear(), 11, 31, 23, 59, 59, 999)`,
i.e. December with offset `31 * msPerDay - 1`. -/
def endOfYear (d : JSDate) : JSDate := ⟨d.getFullYear * 12 + 11, 31 * msPerDay - 1⟩

-- ### The horizontal scale

/-- Source `x` (the closure over the resolved domain's `min` and the
pixels-per-month constant): month count from the domain origin plus the
proportional offset within the month, both scaled by `ppm`. -/
def x (dmin : JSDate) (ppm : ℚ) (d : JSDate) : ℚ :=
  let m := monthDiff (startOfMonth dmin) (startOfMonth d)
  let monthStart := startOfMonth d
  let nextMonth := addMonths monthStart 1
  let frac : ℚ := ((d.time : ℚ) - (monthStart.time : ℚ)) /
    ((nextMonth.time : ℚ) - (monthStart.time : ℚ))
  (m : ℚ) * ppm + frac * ppm

-- ### Items, domain resolution

/-- `TimelineItem` of `src/components/Timeline.tsx` (the variant with an
optional end: absence means a point event).  Date fields are held in the
normalized `toDate` form.  The `end` field is named `endDate?` because `end`
is reserved in Lean. -/
structure TimelineItem where
  id : String
  title : String
  start : JSDate
  endDate? : Option JSDate
  lane : String
deriving DecidableEq, Repr

/-- The date list `data.flatMap(i => [toDate(i.start), i.end ? toDate(i.end) : toDate(i.start)])`. -/
def datesOf (data : List TimelineItem) : List JSDate :=
  data.flatMap (fun i => [i.start, match i.endDate? with | some e => e | none => i.start])

/-- The accumulator of `Math.min` over timestamps, at the level of the dates
that carry them: keep the one with the smaller timestamp. -/
def minD (a b : JSDate) : JSDate := if b.time < a.time then b else a

/-- The accumulator of `Math.max` over timestamps. -/
def maxD (a b : JSDate) : JSDate := if a.time < b.time then b else a

/-- `new Date(Math.min(...dates.map(Number)))`: for a nonempty list this is
the date holding the least timestamp (identical to the least list element,
which is already normalized); for an empty list `Math.min()` is `Infinity`
and `new Date(Infinity)` is an *Invalid Date* (its time value is `NaN`),
modelled as `none`. -/
def newDateMathMin : List JSDate → Option JSDate
  | [] => none
  | h :: t => some (t.foldl minD h)

/-- `new Date(Math.max(...dates.map(Number)))`, dually (empty: `-Infinity`,
again an Invalid Date). -/
def newDateMathMax : List JSDate → Option JSDate
  | [] => none
  | h :: t => some (t.foldl maxD h)

/-- The `{min, max}` record returned by `domainFromData`.  `none` models an
Invalid Date (NaN time value): `getFullYear` of an Invalid Date is `NaN`,
and `new Date(NaN, 0, 1)` and month arithmetic on it stay Invalid, so
Invalidity propagates through `startOfYear`/`endOfYear`/`addMonths`. -/
structure Domain where
  min : Option JSDate
  max : Option JSDate
deriving DecidableEq, Repr

/-- Domain resolution shared by the components: gather the dates, take the
extremes, widen to year boundaries and pad by `padMonths`. -/
def resolveDomain (dates : List JSDate) (padMonths : ℤ) : Domain :=
  let min := newDateMathMin dates
  let max := newDateMathMax dates
  { min := min.map (fun d => addMonths (startOfYear d) (-padMonths)),
    max := max.map (fun d => addMonths (endOfYear d) padMonths) }

/-- Source `domainFromData` of `src/components/Timeline.tsx`. -/
def domainFromData (data : List TimelineItem) (padMonths : ℤ) : Domain :=
  resolveDomain (datesOf data) padMonths

-- ### Rendered primitives (the drawable output per item)

/-- A drawable primitive of one item, as emitted by `SvgTimeline` of
`src/components/Timeline.tsx`: a `circle` for a point event, a rounded
`rect` for an interval bar (coordinates relative to the lane group). -/
inductive Primitive where
  | point (cx cy r : ℚ)
  | bar (px py w h : ℚ)
deriving DecidableEq, Repr

/-- Per-item geometry of `SvgTimeline` (`src/components/Timeline.tsx`):
`xStart = x(s)`, `xEnd = e ? x(e) : x(s)`, `cy = laneHeight / 2`; an item
without `end` yields `circle(cx=xStart, cy, r=6)`, otherwise
`rect(x=xStart, y=cy-10, width=max(2, xEnd-xStart), height=20)`. -/
def renderItem (dmin : JSDate) (ppm : ℚ) (laneHeight : ℚ) (it : TimelineItem) : Primitive :=
  let s := it.start
  let e := it.endDate?
  let xStart := x dmin ppm s
  let xEnd := match e with | some ed => x dmin ppm ed | none => xStart
  let cy := laneHeight / 2
  match e with
  | none => .point xStart cy 6
  | some _ => .bar xStart (cy - 10) (max 2 (xEnd - xStart)) 20

/-- `end` clamped onto `start` (the correction the spec asks for on an
inverted interval). -/
def clampEnd (it : TimelineItem) : TimelineItem := { it with endDate? := some it.start }

-- ### Year ticks

/-- The loop body of `yearsBetween`: `for (let y = min.getFullYear(); y <= stop; y++) out.push(y)`. -/
def yearsBetweenAux (stop : ℤ) (y : ℤ) : List ℤ :=
  if y ≤ stop then y :: yearsBetweenAux stop (y + 1) else []
  termination_by (stop + 1 - y).toNat
  decreasing_by omega

/-- Source `yearsBetween`. -/
def yearsBetween (min max : JSDate) : List ℤ :=
  yearsBetweenAux max.getFullYear min.getFullYear

/-- `PX_PER_MONTH` of `src/tailwind.config.js`'s timeline component. -/
def PX_PER_MONTH : ℚ := 14

/-- The year gridline x-positions of that component:
`yearTicks.map(y => x(new Date(y, 0, 1)))`. -/
def tickXs (dmin dmax : JSDate) : List ℚ :=
  (yearsBetween dmin dmax).map (fun y => x dmin PX_PER_MONTH (newDateYMD y 0 1))

-- ### The tailwind.config.js timeline component: constants, lane model, data

/-- `LANE_HEIGHT` of the tailwind-file component. -/
def LANE_HEIGHT : ℚ := 60

/-- `LANE_GAP` of the tailwind-file component (declared; not used in its
vertical formula). -/
def LANE_GAP : ℚ := 5

/-- `PAD_MONTHS` of the tailwind-file component. -/
def PAD_MONTHS : ℤ := 0

/-- `RULER_HEIGHT` of the tailwind-file component. -/
def RULER_HEIGHT : ℚ := 40

/-- `RAIL_OFFSET` of the tailwind-file component. -/
def RAIL_OFFSET : ℚ := 25

/-- `TimelineItem` of the tailwind-file component (`end` required, optional
rail 0/1, fill color, optional invert flag).  `end` is reserved in Lean, so
the field is `endDate`. -/
structure TWItem where
  title : String
  start : JSDate
  endDate : JSDate
  color : String
  rail : Option ℤ := none
  invert : Bool := false
deriving DecidableEq, Repr

/-- `LaneData` of the tailwind-file component. -/
structure LaneData where
  lane : String
  items : List TWItem
  height : ℚ
  yTop : ℚ
deriving DecidableEq, Repr

/-- The vertical center the tailwind-file component assigns within the lane
group: `it.rail === 1 ? LANE_HEIGHT + RAIL_OFFSET : LANE_HEIGHT / 2`. -/
def twCy (it : TWItem) : ℚ :=
  if it.rail = some 1 then LANE_HEIGHT + RAIL_OFFSET else LANE_HEIGHT / 2

/-- The date list of the tailwind-file `domainFromData`:
`Object.values(data).flatMap(lane => lane.items.flatMap(({start, end}) => [toDate(start), toDate(end)]))`. -/
def twDatesOf (data : List LaneData) : List JSDate :=
  data.flatMap (fun l => l.items.flatMap (fun it => [it.start, it.endDate]))

/-- `domainFromData` of the tailwind-file component. -/
def twDomainFromData (data : List LaneData) (padMonths : ℤ) : Domain :=
  resolveDomain (twDatesOf data) padMonths

/-- The hardcoded `DATA` of the tailwind-file component,
`Object.values` order (work, school, volunteering). -/
def DATA : List LaneData :=
  [ { lane := "Work",
      items :=
        [ { title := "ViLLE", start := isoDate 2016 2 1, endDate := isoDate 2016 5 30,
            color := "#5e96e3" },
          { title := "Vincit", start := isoDate 2018 4 1, endDate := isoDate 2019 8 30,
            color := "#d14f35" },
          { title := "Identio", start := isoDate 2020 5 1, endDate := isoDate 2022 8 30,
            color := "#07001f" },
          { title := "Arado", start := isoDate 2022 9 1, endDate := isoDate 2025 4 30,
            color := "#46d389", invert := true },
          { title := "Laina DeFi", start := isoDate 2024 5 13, endDate := isoDate 2025 12 31,
            rail := some 1, color := "#fff", invert := true },
          { title := "Purtsi Consulting", start := isoDate 2025 5 1, endDate := isoDate 2025 12 31,
            color := "salmon", invert := true } ],
      height := LANE_HEIGHT * 2,
      yTop := RULER_HEIGHT },
    { lane := "School",
      items :=
        [ { title := "Turun Yliopisto", start := isoDate 2016 9 1, endDate := isoDate 2022 12 20,
            color := "#004a43" } ],
      height := LANE_HEIGHT,
      yTop := LANE_HEIGHT * 2 + RULER_HEIGHT },
    { lane := "Volunteering",
      items :=
        [ { title := "Digit ry", start := isoDate 2018 1 1, endDate := isoDate 2019 12 31,
            color := "#000" },
          { title := "Turun Wappuradio ry", start := isoDate 2018 11 11,
            endDate := isoDate 2021 12 31, rail := some 1, color := "#f65f52" } ],
      height := LANE_HEIGHT * 2,
      yTop := LANE_HEIGHT * 3 + RULER_HEIGHT } ]

/-- The two-item collection used to witness the domain claims. -/
def dataC2 : List TimelineItem :=
  [ { id := "a", title := "A", start := isoDate 2020 3 5,
      endDate? := some (isoDate 2021 2 10), lane := "Work" },
    { id := "b", title := "B", start := isoDate 2019 6 1,
      endDate? := none, lane := "School" } ]

/-- The two-item collection used to witness C10. -/
def dataC10 : List TimelineItem :=
  [ { id := "a", title := "A", start := isoDate 2020 3 5,
      endDate? := some (isoDate 2021 2 10), lane := "Work" },
    { id := "c", title := "C", start := isoDate 2019 6 1,
      endDate? := none, lane := "School" } ]

-- ### Lemmas and theorems

-- ### Basic calendar lemmas

theorem monthLen_bounds (idx : ℤ) : 28 * msPerDay ≤ monthLen idx ∧ monthLen idx ≤ 31 * msPerDay := by
  unfold monthLen daysInMonth
  obtain ⟨m, hm, hm0, hm1⟩ : ∃ m, idx % 12 = m ∧ 0 ≤ m ∧ m < 12 :=
    ⟨idx % 12, rfl, Int.emod_nonneg _ (by norm_num), Int.emod_lt_of_pos _ (by norm_num)⟩
  rw [hm]
  interval_cases m <;> cases h : isLeap (idx / 12) <;> simp [h, msPerDay]

theorem monthLen_pos (idx : ℤ) : 0 < monthLen idx := by
  have h := (monthLen_bounds idx).1
  have : (0:ℤ) < 28 * msPerDay := by norm_num [msPerDay]
  omega

theorem isLeap_iff (y : ℤ) :
    isLeap y = true ↔ ((y % 4 = 0 ∧ y % 100 ≠ 0) ∨ y % 400 = 0) := by
  unfold isLeap
  rw [Bool.or_eq_true, Bool.and_eq_true, beq_iff_eq, bne_iff_ne, beq_iff_eq]

theorem daysBeforeYear_succ (y : ℤ) :
    daysBeforeYear (y + 1) = daysBeforeYear y + 365 + (if isLeap y then 1 else 0) := by
  by_cases h : isLeap y
  · rw [if_pos h]
    rw [isLeap_iff] at h
    unfold daysBeforeYear
    omega
  · rw [if_neg h]
    rw [isLeap_iff] at h
    push_neg at h
    unfold daysBeforeYear
    omega

theorem daysBeforeMonth_succ (y m : ℤ) (h0 : 0 ≤ m) (h1 : m ≤ 10) :
    daysBeforeMonth y (m + 1) = daysBeforeMonth y m + daysInMonth y m := by
  unfold daysBeforeMonth daysBeforeMonthNonLeap daysInMonth
  interval_cases m <;> cases h : isLeap y <;> simp [h]

/-- One month step of the absolute month-start clock. -/
theorem monthStartMs_succ (idx : ℤ) :
    monthStartMs (idx + 1) = monthStartMs idx + monthLen idx := by
  obtain ⟨y, m, rfl, hm0, hm1⟩ : ∃ y m, idx = 12 * y + m ∧ 0 ≤ m ∧ m < 12 :=
    ⟨idx / 12, idx % 12, by omega, Int.emod_nonneg _ (by norm_num),
      Int.emod_lt_of_pos _ (by norm_num)⟩
  unfold monthStartMs monthLen
  have d3 : (12 * y + m) / 12 = y := by omega
  have d4 : (12 * y + m) % 12 = m := by omega
  by_cases hc : m = 11
  · have d1 : (12 * y + m + 1) / 12 = y + 1 := by omega
    have d2 : (12 * y + m + 1) % 12 = 0 := by omega
    rw [d1, d2, d3, d4, hc, daysBeforeYear_succ]
    unfold daysBeforeMonth daysBeforeMonthNonLeap daysInMonth
    cases h : isLeap y <;> simp [h] <;> ring
  · have d1 : (12 * y + m + 1) / 12 = y := by omega
    have d2 : (12 * y + m + 1) % 12 = m + 1 := by omega
    rw [d1, d2, d3, d4, daysBeforeMonth_succ y m hm0 (by omega)]
    ring

theorem monthStartMs_add_nat (idx : ℤ) (n : ℕ) :
    monthStartMs idx + 28 * msPerDay * n ≤ monthStartMs (idx + n) := by
  induction n with
  | zero => simp
  | succ k ih =>
    have hstep := monthStartMs_succ (idx + k)
    have hlen := (monthLen_bounds (idx + k)).1
    have : (idx : ℤ) + (k + 1 : ℕ) = (idx + k) + 1 := by push_cast; ring
    rw [this, hstep]
    push_cast
    push_cast at ih
    linarith

theorem monthStartMs_mono {i j : ℤ} (h : i ≤ j) : monthStartMs i ≤ monthStartMs j := by
  obtain ⟨n, rfl⟩ : ∃ n : ℕ, j = i + n := ⟨(j - i).toNat, by omega⟩
  have := monthStartMs_add_nat i n
  have hms : (0:ℤ) ≤ 28 * msPerDay * n := by unfold msPerDay; positivity
  omega

theorem monthStartMs_gap {i j : ℤ} (h : i < j) :
    monthStartMs i + monthLen i ≤ monthStartMs j := by
  have h1 : monthStartMs (i + 1) ≤ monthStartMs j := monthStartMs_mono (by omega)
  have h2 := monthStartMs_succ i
  omega

/-- For normalized dates, timestamp order is lexicographic order on
(month index, offset). -/
theorem time_lt_iff {a b : JSDate} (ha : Valid a) (hb : Valid b) :
    a.time < b.time ↔ (a.idx < b.idx ∨ (a.idx = b.idx ∧ a.off < b.off)) := by
  obtain ⟨ha0, ha1⟩ := ha
  obtain ⟨hb0, hb1⟩ := hb
  unfold JSDate.time
  constructor
  · intro h
    rcases lt_trichotomy a.idx b.idx with hij | hij | hij
    · exact Or.inl hij
    · have hms : monthStartMs a.idx = monthStartMs b.idx := by rw [hij]
      exact Or.inr ⟨hij, by omega⟩
    · exfalso
      have := monthStartMs_gap hij
      omega
  · rintro (hij | ⟨hij, hoff⟩)
    · have := monthStartMs_gap hij
      omega
    · have hms : monthStartMs a.idx = monthStartMs b.idx := by rw [hij]
      omega

theorem time_le_iff {a b : JSDate} (ha : Valid a) (hb : Valid b) :
    a.time ≤ b.time ↔ (a.idx < b.idx ∨ (a.idx = b.idx ∧ a.off ≤ b.off)) := by
  have h := time_lt_iff hb ha
  constructor
  · intro hle
    have : ¬ b.time < a.time := not_lt.mpr hle
    rw [h] at this
    push_neg at this
    omega
  · intro hlex
    by_contra hcon
    push_neg at hcon
    rw [h] at hcon
    omega

theorem getFullYear_mul_add_getMonth (d : JSDate) :
    d.getFullYear * 12 + d.getMonth = d.idx := by
  unfold JSDate.getFullYear JSDate.getMonth
  omega

theorem startOfMonth_idx (d : JSDate) : (startOfMonth d).idx = d.idx := by
  unfold startOfMonth
  exact getFullYear_mul_add_getMonth d

theorem monthDiff_eq_idx_sub (a b : JSDate) : monthDiff a b = b.idx - a.idx := by
  unfold monthDiff JSDate.getFullYear JSDate.getMonth
  omega

/-- Closed form of the projection: `x` only depends on the month-index
difference and the within-month offset ratio. -/
theorem x_formula (dmin : JSDate) (ppm : ℚ) (d : JSDate) :
    x dmin ppm d =
      ((d.idx - dmin.idx : ℤ) : ℚ) * ppm + ((d.off : ℚ) / (monthLen d.idx : ℚ)) * ppm := by
  simp only [x]
  have h1 : (startOfMonth d).idx = d.idx := startOfMonth_idx d
  have h2 : (startOfMonth dmin).idx = dmin.idx := startOfMonth_idx dmin
  have hmd : monthDiff (startOfMonth dmin) (startOfMonth d) = d.idx - dmin.idx := by
    rw [monthDiff_eq_idx_sub, h1, h2]
  have hsm : (startOfMonth d).time = monthStartMs d.idx := by
    unfold JSDate.time startOfMonth
    rw [getFullYear_mul_add_getMonth d]
    ring
  have hnm : (addMonths (startOfMonth d) 1).time = monthStartMs d.idx + monthLen d.idx := by
    unfold JSDate.time addMonths
    rw [startOfMonth_idx d, monthStartMs_succ d.idx]
    simp [startOfMonth]
  rw [hmd, hsm, hnm]
  have hd : (d.time : ℚ) - (monthStartMs d.idx : ℚ) = (d.off : ℚ) := by
    unfold JSDate.time
    push_cast
    ring
  have hden : ((monthStartMs d.idx + monthLen d.idx : ℤ) : ℚ) - (monthStartMs d.idx : ℚ) =
      (monthLen d.idx : ℚ) := by
    push_cast
    ring
  rw [hd, hden]

theorem frac_nonneg {d : JSDate} (hd : Valid d) :
    0 ≤ (d.off : ℚ) / (monthLen d.idx : ℚ) := by
  have h1 : (0:ℚ) ≤ (d.off : ℚ) := by exact_mod_cast hd.1
  have h2 : (0:ℚ) < (monthLen d.idx : ℚ) := by exact_mod_cast monthLen_pos d.idx
  positivity

theorem frac_lt_one {d : JSDate} (hd : Valid d) :
    (d.off : ℚ) / (monthLen d.idx : ℚ) < 1 := by
  have h2 : (0:ℚ) < (monthLen d.idx : ℚ) := by exact_mod_cast monthLen_pos d.idx
  rw [div_lt_one h2]
  exact_mod_cast hd.2

/-- Core monotonicity of the projection over normalized dates. -/
theorem x_mono {a b : JSDate} (dmin : JSDate) {ppm : ℚ} (ha : Valid a) (hb : Valid b)
    (hab : a.time ≤ b.time) (hppm : 0 ≤ ppm) : x dmin ppm a ≤ x dmin ppm b := by
  rw [x_formula, x_formula]
  rcases (time_le_iff ha hb).mp hab with hij | ⟨hij, hoff⟩
  · have hfa : (a.off : ℚ) / (monthLen a.idx : ℚ) ≤ 1 := le_of_lt (frac_lt_one ha)
    have hfb : 0 ≤ (b.off : ℚ) / (monthLen b.idx : ℚ) := frac_nonneg hb
    have h1 : (a.off : ℚ) / (monthLen a.idx : ℚ) * ppm ≤ 1 * ppm :=
      mul_le_mul_of_nonneg_right hfa hppm
    have h2 : 0 ≤ (b.off : ℚ) / (monthLen b.idx : ℚ) * ppm := mul_nonneg hfb hppm
    have h3 : ((a.idx - dmin.idx : ℤ) : ℚ) + 1 ≤ ((b.idx - dmin.idx : ℤ) : ℚ) := by
      have h : (a.idx - dmin.idx) + 1 ≤ (b.idx - dmin.idx) := by omega
      exact_mod_cast h
    have h4 : (((a.idx - dmin.idx : ℤ) : ℚ) + 1) * ppm ≤ ((b.idx - dmin.idx : ℤ) : ℚ) * ppm :=
      mul_le_mul_of_nonneg_right h3 hppm
    nlinarith
  · rw [hij]
    have hden : (0:ℚ) < (monthLen b.idx : ℚ) := by exact_mod_cast monthLen_pos b.idx
    have hfr : (a.off : ℚ) / (monthLen b.idx : ℚ) ≤ (b.off : ℚ) / (monthLen b.idx : ℚ) :=
      div_le_div_of_nonneg_right (by exact_mod_cast hoff) hden.le
    have := mul_le_mul_of_nonneg_right hfr hppm
    linarith

-- ### Extremum folds

theorem minD_le_left (a b : JSDate) : (minD a b).time ≤ a.time := by
  unfold minD
  split <;> omega

theorem minD_le_right (a b : JSDate) : (minD a b).time ≤ b.time := by
  unfold minD
  split <;> omega

theorem maxD_ge_left (a b : JSDate) : a.time ≤ (maxD a b).time := by
  unfold maxD
  split <;> omega

theorem maxD_ge_right (a b : JSDate) : b.time ≤ (maxD a b).time := by
  unfold maxD
  split <;> omega

theorem foldl_minD_le_init (t : List JSDate) (h : JSDate) :
    (t.foldl minD h).time ≤ h.time := by
  induction t generalizing h with
  | nil => simp
  | cons a t ih =>
    calc ((a :: t).foldl minD h).time = (t.foldl minD (minD h a)).time := rfl
      _ ≤ (minD h a).time := ih _
      _ ≤ h.time := minD_le_left h a

theorem foldl_minD_le_mem (t : List JSDate) (h : JSDate) :
    ∀ d ∈ t, (t.foldl minD h).time ≤ d.time := by
  induction t generalizing h with
  | nil => simp
  | cons a t ih =>
    intro d hd
    rcases List.mem_cons.mp hd with rfl | hd
    · calc ((d :: t).foldl minD h).time = (t.foldl minD (minD h d)).time := rfl
        _ ≤ (minD h d).time := foldl_minD_le_init t _
        _ ≤ d.time := minD_le_right h d
    · exact ih (minD h a) d hd

theorem foldl_minD_mem (t : List JSDate) (h : JSDate) :
    t.foldl minD h = h ∨ t.foldl minD h ∈ t := by
  induction t generalizing h with
  | nil => simp
  | cons a t ih =>
    have : (a :: t).foldl minD h = t.foldl minD (minD h a) := rfl
    rw [this]
    rcases ih (minD h a) with heq | hmem
    · rw [heq]
      unfold minD
      split
      · exact Or.inr (List.mem_cons_self a t)
      · exact Or.inl rfl
    · exact Or.inr (List.mem_cons_of_mem a hmem)

theorem foldl_maxD_ge_init (t : List JSDate) (h : JSDate) :
    h.time ≤ (t.foldl maxD h).time := by
  induction t generalizing h with
  | nil => simp
  | cons a t ih =>
    calc h.time ≤ (maxD h a).time := maxD_ge_left h a
      _ ≤ (t.foldl maxD (maxD h a)).time := ih _
      _ = ((a :: t).foldl maxD h).time := rfl

theorem foldl_maxD_ge_mem (t : List JSDate) (h : JSDate) :
    ∀ d ∈ t, d.time ≤ (t.foldl maxD h).time := by
  induction t generalizing h with
  | nil => simp
  | cons a t ih =>
    intro d hd
    rcases List.mem_cons.mp hd with rfl | hd
    · calc d.time ≤ (maxD h d).time := maxD_ge_right h d
        _ ≤ (t.foldl maxD (maxD h d)).time := foldl_maxD_ge_init t _
        _ = ((d :: t).foldl maxD h).time := rfl
    · exact ih (maxD h a) d hd

theorem foldl_maxD_mem (t : List JSDate) (h : JSDate) :
    t.foldl maxD h = h ∨ t.foldl maxD h ∈ t := by
  induction t generalizing h with
  | nil => simp
  | cons a t ih =>
    have : (a :: t).foldl maxD h = t.foldl maxD (maxD h a) := rfl
    rw [this]
    rcases ih (maxD h a) with heq | hmem
    · rw [heq]
      unfold maxD
      split
      · exact Or.inr (List.mem_cons_self a t)
      · exact Or.inl rfl
    · exact Or.inr (List.mem_cons_of_mem a hmem)

-- ### yearsBetween characterization

theorem yearsBetweenAux_eq_aux (stop : ℤ) (n : ℕ) :
    ∀ y : ℤ, (stop + 1 - y).toNat = n →
      yearsBetweenAux stop y = (List.range n).map (fun i : ℕ => y + (i : ℤ)) := by
  induction n with
  | zero =>
    intro y hy
    rw [yearsBetweenAux, if_neg (by omega : ¬ y ≤ stop)]
    rfl
  | succ k ih =>
    intro y hy
    rw [yearsBetweenAux]
    rw [if_pos (by omega)]
    rw [ih (y + 1) (by omega)]
    rw [List.range_succ_eq_map]
    simp only [List.map_cons, List.map_map]
    have hf : ((fun i : ℕ => y + (i : ℤ)) ∘ Nat.succ) = (fun i : ℕ => y + 1 + (i : ℤ)) := by
      funext i
      simp only [Function.comp_apply]
      push_cast
      ring
    rw [hf]
    norm_num

theorem yearsBetween_eq (dmin dmax : JSDate) :
    yearsBetween dmin dmax =
      (List.range (dmax.getFullYear + 1 - dmin.getFullYear).toNat).map
        (fun i : ℕ => dmin.getFullYear + (i : ℤ)) :=
  yearsBetweenAux_eq_aux _ _ _ rfl

theorem x_jan1 (dmin : JSDate) (ppm : ℚ) (y : ℤ) :
    x dmin ppm (newDateYMD y 0 1) = ((y * 12 - dmin.idx : ℤ) : ℚ) * ppm := by
  rw [x_formula]
  simp [newDateYMD]

theorem tickXs_chain (dmin dmax : JSDate) : List.Chain' (· < ·) (tickXs dmin dmax) := by
  unfold tickXs
  rw [yearsBetween_eq, List.map_map]
  rw [List.chain'_iff_pairwise]
  rw [List.pairwise_map]
  refine (List.pairwise_lt_range _).imp ?_
  intro i j hij
  simp only [Function.comp_apply]
  rw [x_jan1, x_jan1]
  have h : ((dmin.getFullYear + (i:ℤ)) * 12 - dmin.idx) < ((dmin.getFullYear + (j:ℤ)) * 12 - dmin.idx) := by
    have : (i : ℤ) < (j : ℤ) := by exact_mod_cast hij
    omega
  have h14 : (0:ℚ) < PX_PER_MONTH := by norm_num [PX_PER_MONTH]
  have := mul_lt_mul_of_pos_right (show (((dmin.getFullYear + (i:ℤ)) * 12 - dmin.idx : ℤ) : ℚ) < (((dmin.getFullYear + (j:ℤ)) * 12 - dmin.idx : ℤ) : ℚ) from by exact_mod_cast h) h14
  exact this

-- ### Domain-side order lemmas

theorem time_startOfYear_le {d : JSDate} (hd : Valid d) : (startOfYear d).time ≤ d.time := by
  have h1 : d.idx / 12 * 12 ≤ d.idx := by omega
  have h2 := monthStartMs_mono h1
  have h3 := hd.1
  unfold startOfYear JSDate.time JSDate.getFullYear
  simp only []
  omega

theorem time_le_endOfYear {d : JSDate} (hd : Valid d) : d.time ≤ (endOfYear d).time := by
  have hub : d.idx ≤ d.idx / 12 * 12 + 11 := by omega
  have hlen := (monthLen_bounds d.idx).2
  have hoff := hd.2
  unfold endOfYear JSDate.time JSDate.getFullYear
  simp only []
  rcases eq_or_lt_of_le hub with heq | hlt
  · have hms : monthStartMs d.idx = monthStartMs (d.idx / 12 * 12 + 11) := by rw [← heq]
    omega
  · have hgap := monthStartMs_gap hlt
    have hms : (0:ℤ) ≤ 31 * msPerDay - 1 := by norm_num [msPerDay]
    omega

theorem time_addMonths_mono (d : JSDate) {p q : ℤ} (h : p ≤ q) :
    (addMonths d p).time ≤ (addMonths d q).time := by
  have := monthStartMs_mono (show d.idx + p ≤ d.idx + q by omega)
  unfold addMonths JSDate.time
  simp only []
  omega

theorem time_addMonths_zero (d : JSDate) : (addMonths d 0).time = d.time := by
  unfold addMonths JSDate.time
  simp

-- ### Membership and validity of the collected dates

theorem start_mem_datesOf {data : List TimelineItem} {i : TimelineItem} (hi : i ∈ data) :
    i.start ∈ datesOf data :=
  List.mem_flatMap.mpr ⟨i, hi, by simp⟩

theorem endD_mem_datesOf {data : List TimelineItem} {i : TimelineItem} (hi : i ∈ data) :
    i.endDate?.getD i.start ∈ datesOf data := by
  refine List.mem_flatMap.mpr ⟨i, hi, ?_⟩
  cases i.endDate? <;> simp

theorem datesOf_valid {data : List TimelineItem}
    (hvalid : ∀ i ∈ data, Valid i.start ∧ Valid (i.endDate?.getD i.start)) :
    ∀ d ∈ datesOf data, Valid d := by
  intro d hd
  obtain ⟨i, hi, hmem⟩ := List.mem_flatMap.mp hd
  obtain ⟨hs, he⟩ := hvalid i hi
  simp only [List.mem_cons, List.not_mem_nil, or_false] at hmem
  rcases hmem with h | h
  · rw [h]
    exact hs
  · cases hcase : i.endDate? with
    | none =>
      rw [hcase] at h
      simp only [] at h
      rw [h]
      exact hs
    | some e =>
      rw [hcase] at h
      simp only [] at h
      rw [h]
      rw [hcase, Option.getD_some] at he
      exact he

theorem newDateMathMin_le {dates : List JSDate} {rawMin : JSDate}
    (h : newDateMathMin dates = some rawMin) : ∀ d ∈ dates, rawMin.time ≤ d.time := by
  cases dates with
  | nil => cases h
  | cons hd t =>
    have hr : rawMin = t.foldl minD hd := by
      unfold newDateMathMin at h
      exact (Option.some.injEq _ _).mp h.symm
    subst hr
    intro d hdm
    rcases List.mem_cons.mp hdm with rfl | hdm
    · exact foldl_minD_le_init t d
    · exact foldl_minD_le_mem t hd d hdm

theorem newDateMathMin_mem {dates : List JSDate} {rawMin : JSDate}
    (h : newDateMathMin dates = some rawMin) : rawMin ∈ dates := by
  cases dates with
  | nil => cases h
  | cons hd t =>
    have hr : rawMin = t.foldl minD hd := by
      unfold newDateMathMin at h
      exact (Option.some.injEq _ _).mp h.symm
    subst hr
    rcases foldl_minD_mem t hd with heq | hmem
    · rw [heq]
      exact List.mem_cons_self hd t
    · exact List.mem_cons_of_mem hd hmem

theorem newDateMathMax_ge {dates : List JSDate} {rawMax : JSDate}
    (h : newDateMathMax dates = some rawMax) : ∀ d ∈ dates, d.time ≤ rawMax.time := by
  cases dates with
  | nil => cases h
  | cons hd t =>
    have hr : rawMax = t.foldl maxD hd := by
      unfold newDateMathMax at h
      exact (Option.some.injEq _ _).mp h.symm
    subst hr
    intro d hdm
    rcases List.mem_cons.mp hdm with rfl | hdm
    · exact foldl_maxD_ge_init t d
    · exact foldl_maxD_ge_mem t hd d hdm

theorem newDateMathMax_mem {dates : List JSDate} {rawMax : JSDate}
    (h : newDateMathMax dates = some rawMax) : rawMax ∈ dates := by
  cases dates with
  | nil => cases h
  | cons hd t =>
    have hr : rawMax = t.foldl maxD hd := by
      unfold newDateMathMax at h
      exact (Option.some.injEq _ _).mp h.symm
    subst hr
    rcases foldl_maxD_mem t hd with heq | hmem
    · rw [heq]
      exact List.mem_cons_self hd t
    · exact List.mem_cons_of_mem hd hmem

-- ### Claims

/-- C1: For every two dates `a` and `b` with `a < b`, both within the
resolved domain, the horizontal projection is monotonically non-decreasing:
`x(a) ≤ x(b)`, where `x` counts months from `startOfMonth(domain.min)` at
`pixelsPerMonth` per month plus the within-month ratio. -/
theorem C1_project_monotone (dmin dmax a b : JSDate) (ppm : ℚ)
    (ha : Valid a) (hb : Valid b)
    (hal : dmin.time ≤ a.time) (hbu : b.time ≤ dmax.time)
    (hab : a.time < b.time) (hppm : 0 ≤ ppm) :
    x dmin ppm a ≤ x dmin ppm b :=
  x_mono dmin ha hb (le_of_lt hab) hppm

theorem C1_witness :
    Valid (isoDate 2020 5 1) ∧ Valid (isoDate 2020 6 15)
    ∧ (isoDate 2016 1 1).time ≤ (isoDate 2020 5 1).time
    ∧ (isoDate 2020 6 15).time ≤ (isoDate 2026 1 1).time
    ∧ (isoDate 2020 5 1).time < (isoDate 2020 6 15).time
    ∧ (0:ℚ) ≤ 14
    ∧ x (isoDate 2016 1 1) 14 (isoDate 2020 5 1) ≤ x (isoDate 2016 1 1) 14 (isoDate 2020 6 15) :=
  ⟨by decide, by decide, by decide, by decide, by decide, by norm_num,
    C1_project_monotone (isoDate 2016 1 1) (isoDate 2026 1 1) (isoDate 2020 5 1)
      (isoDate 2020 6 15) 14 (by decide) (by decide) (by decide) (by decide) (by decide)
      (by norm_num)⟩

/-- C5: For every resolved domain, `yearTicks` is exactly one tick per
calendar year from `domain.min`'s year through `domain.max`'s year
inclusive, in increasing year order; each tick's gridline x-position is
`project(Jan 1 of that year)`, and these x-positions are strictly
increasing. -/
theorem C5_yearTicks (dmin dmax : JSDate) :
    yearsBetween dmin dmax =
      (List.range (dmax.getFullYear + 1 - dmin.getFullYear).toNat).map
        (fun i : ℕ => dmin.getFullYear + (i : ℤ))
    ∧ tickXs dmin dmax =
        (yearsBetween dmin dmax).map (fun y => x dmin PX_PER_MONTH (newDateYMD y 0 1))
    ∧ List.Chain' (· < ·) (tickXs dmin dmax) :=
  ⟨yearsBetween_eq dmin dmax, rfl, tickXs_chain dmin dmax⟩

/-- C6: an item without `end` is rendered as a point primitive (circle),
never a bar; an item with `end` present is rendered as a bar primitive
(rectangle). -/
theorem C6_point_vs_bar (dmin : JSDate) (ppm laneHeight : ℚ) (it : TimelineItem) :
    (it.endDate? = none →
      renderItem dmin ppm laneHeight it = .point (x dmin ppm it.start) (laneHeight / 2) 6)
    ∧ (∀ e, it.endDate? = some e →
      renderItem dmin ppm laneHeight it =
        .bar (x dmin ppm it.start) (laneHeight / 2 - 10)
          (max 2 (x dmin ppm e - x dmin ppm it.start)) 20) := by
  constructor
  · intro h
    simp [renderItem, h]
  · intro e h
    simp [renderItem, h]

theorem C6_witness :
    renderItem (isoDate 2016 1 1) 14 60
        { id := "p", title := "P", start := isoDate 2020 1 1, endDate? := none, lane := "Work" } =
      .point (x (isoDate 2016 1 1) 14 (isoDate 2020 1 1)) ((60:ℚ) / 2) 6
    ∧ renderItem (isoDate 2016 1 1) 14 60
        { id := "b", title := "B", start := isoDate 2020 1 1,
          endDate? := some (isoDate 2020 3 1), lane := "Work" } =
      .bar (x (isoDate 2016 1 1) 14 (isoDate 2020 1 1)) ((60:ℚ) / 2 - 10)
        (max 2 (x (isoDate 2016 1 1) 14 (isoDate 2020 3 1) - x (isoDate 2016 1 1) 14 (isoDate 2020 1 1))) 20 :=
  ⟨(C6_point_vs_bar (isoDate 2016 1 1) 14 60 _).1 rfl,
    (C6_point_vs_bar (isoDate 2016 1 1) 14 60 _).2 _ rfl⟩

set_option maxRecDepth 10000 in
/-- C7: with `pixelsPerMonth = 14`, the tailwind-file component's data and
padding resolve a domain whose minimum is 2016-01-01, and projecting
2020-05-01 yields exactly `monthsBetween(2016-01, 2020-05) * 14 = 52 * 14 =
728`. -/
theorem C7_concrete_projection :
    (twDomainFromData DATA PAD_MONTHS).min = some (isoDate 2016 1 1)
    ∧ monthDiff (isoDate 2016 1 1) (isoDate 2020 5 1) = 52
    ∧ x (isoDate 2016 1 1) 14 (isoDate 2020 5 1) = 52 * 14
    ∧ (52 * 14 : ℚ) = 728 := by
  refine ⟨by decide, by decide, ?_, by norm_num⟩
  rw [x_formula]
  norm_num [isoDate, newDateYMD]

/-- C8: for every item with an `end`, the rendered bar width is
`max(minimumBarWidth, xEnd - xStart)` with `minimumBarWidth = 2`; the width
is always positive, and an item whose `end` equals its `start` produces a
bar of width exactly 2. -/
theorem C8_bar_width (dmin : JSDate) (ppm laneHeight : ℚ) (it : TimelineItem) (e : JSDate)
    (he : it.endDate? = some e) :
    renderItem dmin ppm laneHeight it =
      .bar (x dmin ppm it.start) (laneHeight / 2 - 10)
        (max 2 (x dmin ppm e - x dmin ppm it.start)) 20
    ∧ 0 < max 2 (x dmin ppm e - x dmin ppm it.start)
    ∧ (e = it.start →
        renderItem dmin ppm laneHeight it =
          .bar (x dmin ppm it.start) (laneHeight / 2 - 10) 2 20) := by
  refine ⟨by simp [renderItem, he], ?_, ?_⟩
  · exact lt_of_lt_of_le (by norm_num) (le_max_left _ _)
  · intro hes
    have hm : max 2 (x dmin ppm e - x dmin ppm it.start) = 2 := by
      rw [hes, sub_self]
      exact max_eq_left (by norm_num)
    simp [renderItem, he, hm]

theorem C8_witness :
    ({ id := "s", title := "S", start := isoDate 2021 7 4,
        endDate? := some (isoDate 2021 7 4), lane := "Work" } : TimelineItem).endDate? =
      some (isoDate 2021 7 4)
    ∧ renderItem (isoDate 2016 1 1) 14 60
        { id := "s", title := "S", start := isoDate 2021 7 4,
          endDate? := some (isoDate 2021 7 4), lane := "Work" } =
      .bar (x (isoDate 2016 1 1) 14 (isoDate 2021 7 4)) ((60:ℚ) / 2 - 10) 2 20 :=
  ⟨rfl,
    (C8_bar_width (isoDate 2016 1 1) 14 60
      { id := "s", title := "S", start := isoDate 2021 7 4,
        endDate? := some (isoDate 2021 7 4), lane := "Work" }
      (isoDate 2021 7 4) rfl).2.2 rfl⟩

/-- C4: an item whose `end` precedes its `start` renders exactly as if the
`end` had been clamped to the `start`: a bar at `xStart` of the minimum
width 2 — never a negative-width bar. -/
theorem C4_inverted_interval (dmin : JSDate) (ppm laneHeight : ℚ) (it : TimelineItem)
    (e : JSDate) (he : it.endDate? = some e) (hvs : Valid it.start) (hve : Valid e)
    (hlt : e.time < it.start.time) (hppm : 0 ≤ ppm) :
    renderItem dmin ppm laneHeight it = renderItem dmin ppm laneHeight (clampEnd it)
    ∧ renderItem dmin ppm laneHeight it =
        .bar (x dmin ppm it.start) (laneHeight / 2 - 10) 2 20 := by
  have hxe : x dmin ppm e ≤ x dmin ppm it.start := x_mono dmin hve hvs (le_of_lt hlt) hppm
  have hm : max 2 (x dmin ppm e - x dmin ppm it.start) = 2 := max_eq_left (by linarith)
  have hm2 : max 2 (x dmin ppm it.start - x dmin ppm it.start) = 2 := by
    rw [sub_self]
    exact max_eq_left (by norm_num)
  constructor
  · simp [renderItem, clampEnd, he, hm, hm2]
  · simp [renderItem, he, hm]

theorem C4_witness :
    ({ id := "w", title := "W", start := isoDate 2020 5 1,
        endDate? := some (isoDate 2020 4 1), lane := "Work" } : TimelineItem).endDate? =
      some (isoDate 2020 4 1)
    ∧ (isoDate 2020 4 1).time < (isoDate 2020 5 1).time
    ∧ renderItem (isoDate 2016 1 1) 14 60
        { id := "w", title := "W", start := isoDate 2020 5 1,
          endDate? := some (isoDate 2020 4 1), lane := "Work" } =
      renderItem (isoDate 2016 1 1) 14 60
        (clampEnd
          { id := "w", title := "W", start := isoDate 2020 5 1,
            endDate? := some (isoDate 2020 4 1), lane := "Work" })
    ∧ renderItem (isoDate 2016 1 1) 14 60
        { id := "w", title := "W", start := isoDate 2020 5 1,
          endDate? := some (isoDate 2020 4 1), lane := "Work" } =
      .bar (x (isoDate 2016 1 1) 14 (isoDate 2020 5 1)) ((60:ℚ) / 2 - 10) 2 20 := by
  have h := C4_inverted_interval (isoDate 2016 1 1) 14 60
    { id := "w", title := "W", start := isoDate 2020 5 1,
      endDate? := some (isoDate 2020 4 1), lane := "Work" }
    (isoDate 2020 4 1) rfl (by decide) (by decide) (by decide) (by norm_num)
  exact ⟨rfl, by decide, h.1, h.2⟩

/-- C3 counterexample: applied to an empty item collection with the default
padding, domain resolution does not fail fast — it returns the domain made
of two Invalid-Date (NaN-valued) sentinels (`Math.min()` of no arguments is
`Infinity`, and `new Date(Infinity)` is an Invalid Date), which flows on to
the coordinate computation. -/
theorem C3_counterexample : domainFromData [] 0 = { min := none, max := none } := rfl

/-- C3 (amended): when domain resolution is applied to an empty item
collection it does not raise any explicit "cannot compute domain" error;
for every padding it returns NaN-based Invalid-Date sentinels for both
bounds, which are handed to downstream coordinate computation. -/
theorem C3_empty_domain (pad : ℤ) : domainFromData [] pad = { min := none, max := none } := rfl

/-- C9: in the ordered lane list of the tailwind-file component, each lane's
vertical top offset is the ruler height plus the cumulative sum of the
heights of all prior lanes (with no extra gap in this formula), and every
item's vertical center is `laneTop + LANE_HEIGHT / 2` for rail 0 / absent,
or `laneTop + LANE_HEIGHT + RAIL_OFFSET` for rail 1. -/
theorem C9_lane_layout :
    (∀ k : Fin DATA.length,
      (DATA.get k).yTop = RULER_HEIGHT + ((DATA.take k.val).map LaneData.height).sum)
    ∧ (∀ (k : Fin DATA.length) (j : Fin (DATA.get k).items.length),
        (((DATA.get k).items.get j).rail = some 1 →
          (DATA.get k).yTop + twCy ((DATA.get k).items.get j) =
            (DATA.get k).yTop + (LANE_HEIGHT + RAIL_OFFSET))
        ∧ (((DATA.get k).items.get j).rail ≠ some 1 →
          (DATA.get k).yTop + twCy ((DATA.get k).items.get j) =
            (DATA.get k).yTop + LANE_HEIGHT / 2)) := by
  constructor
  · intro k
    fin_cases k <;> simp [DATA] <;> norm_num [RULER_HEIGHT, LANE_HEIGHT]
  · intro k j
    constructor
    · intro h
      unfold twCy
      rw [if_pos h]
    · intro h
      unfold twCy
      rw [if_neg h]

theorem C9_witness :
    ((DATA.get ⟨0, by norm_num [DATA]⟩).items.get ⟨4, by norm_num [DATA]⟩).rail = some 1
    ∧ (DATA.get ⟨0, by norm_num [DATA]⟩).yTop +
        twCy ((DATA.get ⟨0, by norm_num [DATA]⟩).items.get ⟨4, by norm_num [DATA]⟩) =
      (DATA.get ⟨0, by norm_num [DATA]⟩).yTop + (LANE_HEIGHT + RAIL_OFFSET)
    ∧ ((DATA.get ⟨0, by norm_num [DATA]⟩).items.get ⟨0, by norm_num [DATA]⟩).rail ≠ some 1
    ∧ (DATA.get ⟨0, by norm_num [DATA]⟩).yTop +
        twCy ((DATA.get ⟨0, by norm_num [DATA]⟩).items.get ⟨0, by norm_num [DATA]⟩) =
      (DATA.get ⟨0, by norm_num [DATA]⟩).yTop + LANE_HEIGHT / 2 := by
  refine ⟨rfl, ?_, by decide, ?_⟩
  · exact (C9_lane_layout.2 ⟨0, by norm_num [DATA]⟩ ⟨4, by norm_num [DATA]⟩).1 rfl
  · exact (C9_lane_layout.2 ⟨0, by norm_num [DATA]⟩ ⟨0, by norm_num [DATA]⟩).2 (by decide)

/-- C2: for every non-empty item collection of normalized dates and every
non-negative `padMonths`, the resolved domain contains every item:
`domain.min ≤ item.start` and `domain.max ≥ (item.end ?? item.start)`
(timestamps compared, as JS compares dates). -/
theorem C2_domain_containment (data : List TimelineItem) (pad : ℤ) (dmin dmax : JSDate)
    (hpad : 0 ≤ pad)
    (hvalid : ∀ i ∈ data, Valid i.start ∧ Valid (i.endDate?.getD i.start))
    (hmin : (domainFromData data pad).min = some dmin)
    (hmax : (domainFromData data pad).max = some dmax) :
    ∀ i ∈ data, dmin.time ≤ i.start.time ∧ (i.endDate?.getD i.start).time ≤ dmax.time := by
  unfold domainFromData resolveDomain at hmin hmax
  simp only [] at hmin hmax
  cases hrm : newDateMathMin (datesOf data) with
  | none =>
    rw [hrm] at hmin
    cases hmin
  | some rawMin =>
  cases hrx : newDateMathMax (datesOf data) with
  | none =>
    rw [hrx] at hmax
    cases hmax
  | some rawMax =>
  rw [hrm] at hmin
  rw [hrx] at hmax
  simp only [Option.map_some'] at hmin hmax
  have hdmin : dmin = addMonths (startOfYear rawMin) (-pad) :=
    ((Option.some.injEq _ _).mp hmin).symm
  have hdmax : dmax = addMonths (endOfYear rawMax) pad :=
    ((Option.some.injEq _ _).mp hmax).symm
  have hvD := datesOf_valid hvalid
  have hvMin : Valid rawMin := hvD _ (newDateMathMin_mem hrm)
  have hvMax : Valid rawMax := hvD _ (newDateMathMax_mem hrx)
  intro i hi
  constructor
  · calc dmin.time = (addMonths (startOfYear rawMin) (-pad)).time := by rw [hdmin]
      _ ≤ (addMonths (startOfYear rawMin) 0).time := time_addMonths_mono _ (by omega)
      _ = (startOfYear rawMin).time := time_addMonths_zero _
      _ ≤ rawMin.time := time_startOfYear_le hvMin
      _ ≤ i.start.time := newDateMathMin_le hrm _ (start_mem_datesOf hi)
  · calc (i.endDate?.getD i.start).time ≤ rawMax.time :=
        newDateMathMax_ge hrx _ (endD_mem_datesOf hi)
      _ ≤ (endOfYear rawMax).time := time_le_endOfYear hvMax
      _ = (addMonths (endOfYear rawMax) 0).time := (time_addMonths_zero _).symm
      _ ≤ (addMonths (endOfYear rawMax) pad).time := time_addMonths_mono _ (by omega)
      _ = dmax.time := by rw [hdmax]

set_option maxRecDepth 10000 in
theorem C2_witness :
    (0:ℤ) ≤ 1
    ∧ (∀ i ∈ dataC2, Valid i.start ∧ Valid (i.endDate?.getD i.start))
    ∧ (domainFromData dataC2 1).min = some ⟨24227, 0⟩
    ∧ (domainFromData dataC2 1).max = some ⟨24264, 2678399999⟩
    ∧ ∀ i ∈ dataC2,
        (⟨24227, 0⟩ : JSDate).time ≤ i.start.time
        ∧ (i.endDate?.getD i.start).time ≤ (⟨24264, 2678399999⟩ : JSDate).time :=
  ⟨by decide, by decide, by decide, by decide,
    C2_domain_containment dataC2 1 ⟨24227, 0⟩ ⟨24264, 2678399999⟩
      (by decide) (by decide) (by decide) (by decide)⟩

/-- C10: for every non-empty item collection and non-negative `padMonths`,
the resolved domain minimum is aligned to the first instant of a month
(offset 0), projects to `x = 0`, and every normalized date at or after it
projects to a non-negative coordinate. -/
theorem C10_origin_nonneg (data : List TimelineItem) (pad : ℤ) (dmin : JSDate) (ppm : ℚ)
    (hpad : 0 ≤ pad) (hppm : 0 ≤ ppm)
    (hmin : (domainFromData data pad).min = some dmin) :
    dmin.off = 0 ∧ x dmin ppm dmin = 0
    ∧ ∀ d, Valid d → dmin.time ≤ d.time → 0 ≤ x dmin ppm d := by
  unfold domainFromData resolveDomain at hmin
  simp only [] at hmin
  cases hrm : newDateMathMin (datesOf data) with
  | none =>
    rw [hrm] at hmin
    cases hmin
  | some rawMin =>
  rw [hrm] at hmin
  simp only [Option.map_some'] at hmin
  have hdmin : dmin = addMonths (startOfYear rawMin) (-pad) :=
    ((Option.some.injEq _ _).mp hmin).symm
  have hoff : dmin.off = 0 := by rw [hdmin]; rfl
  have hvmin : Valid dmin := by
    constructor
    · rw [hoff]
    · rw [hoff]
      exact monthLen_pos _
  refine ⟨hoff, ?_, ?_⟩
  · rw [x_formula, hoff]
    simp
  · intro d hd hle
    have hidx : dmin.idx ≤ d.idx := by
      rcases (time_le_iff hvmin hd).mp hle with hij | ⟨hij, _⟩ <;> omega
    rw [x_formula]
    have h1 : (0:ℚ) ≤ ((d.idx - dmin.idx : ℤ) : ℚ) := by
      exact_mod_cast (show (0:ℤ) ≤ d.idx - dmin.idx by omega)
    exact add_nonneg (mul_nonneg h1 hppm) (mul_nonneg (frac_nonneg hd) hppm)

set_option maxRecDepth 10000 in
theorem C10_witness :
    (0:ℤ) ≤ 1 ∧ (0:ℚ) ≤ 14
    ∧ (domainFromData dataC10 1).min = some ⟨24227, 0⟩
    ∧ ((⟨24227, 0⟩ : JSDate).off = 0 ∧ x ⟨24227, 0⟩ 14 ⟨24227, 0⟩ = 0
        ∧ ∀ d, Valid d → (⟨24227, 0⟩ : JSDate).time ≤ d.time → 0 ≤ x ⟨24227, 0⟩ 14 d)
    ∧ Valid (isoDate 2020 5 1)
    ∧ (⟨24227, 0⟩ : JSDate).time ≤ (isoDate 2020 5 1).time :=
  ⟨by decide, by norm_num, by decide,
    C10_origin_nonneg dataC10 1 ⟨24227, 0⟩ 14 (by decide) (by norm_num) (by decide),
    by decide, by decide⟩
